import Mathlib

/-!
Shallow embedding of the core of the xauron signal bot: the crossing-detection
trade tracker (trade_tracker.py), the indicator engine and scorer (bot.py),
and the state loader (storage.py).  Prices, levels and timestamps are
modelled as rationals; Python lists become Lean lists; functions that raise
exceptions return Option.
-/

namespace Xauron

/-- Candle record from bot.py: datetime plus OHLC prices. -/
structure Candle where
  t : String
  o : ℚ
  h : ℚ
  l : ℚ
  c : ℚ
deriving DecidableEq

/-- VirtualTrade dataclass from trade_tracker.py: plan levels, hit flags,
closed marker and the last observed price. -/
structure VirtualTrade where
  symbol : String
  tf : String
  side : String
  score : Int
  entry : ℚ
  sl : ℚ
  tp1 : ℚ
  tp2 : ℚ
  tp3 : ℚ
  created_at : ℚ
  hit_tp1 : Bool := false
  hit_tp2 : Bool := false
  hit_tp3 : Bool := false
  hit_sl : Bool := false
  closed : Bool := false
  last_price : Option ℚ := none
deriving DecidableEq

/-- Embeds trade_tracker._is_buy: strip whitespace from both ends,
uppercase, compare with BUY; spelled out over the character list so the
kernel can evaluate it. -/
def _is_buy (side : String) : Bool :=
  (((side.toList.dropWhile fun ch => ch.isWhitespace).reverse.dropWhile
      fun ch => ch.isWhitespace).reverse.map Char.toUpper) == "BUY".toList

/-- Embeds trade_tracker._crossed: touch semantics when prev is None,
strict crossing otherwise. -/
def _crossed (level : ℚ) (prev : Option ℚ) (now : ℚ) (up : Bool) : Bool :=
  match prev with
  | none => if up then decide (now ≥ level) else decide (now ≤ level)
  | some p =>
      if up then decide (p < level ∧ level ≤ now)
      else decide (p > level ∧ level ≥ now)

/-- Embeds trade_tracker.check_hits: the Python function mutates the trade
and returns the event list; here it returns (events, updated trade).
The last observed price is updated unconditionally before evaluation;
SL is checked first and short-circuits; TP1, TP2, TP3 follow in order. -/
def check_hits (tr0 : VirtualTrade) (price : ℚ) : List String × VirtualTrade :=
  let buy := _is_buy tr0.side
  let prev := tr0.last_price
  let tr := { tr0 with last_price := some price }
  let slHit := !tr.hit_sl && !tr.closed &&
      (if buy then _crossed tr.sl prev price false
       else _crossed tr.sl prev price true)
  if slHit then
    (["SL"], { tr with hit_sl := true, closed := true })
  else
    let tp1Hit := !tr.hit_tp1 && !tr.closed &&
        (if buy then _crossed tr.tp1 prev price true
         else _crossed tr.tp1 prev price false)
    let tr1 := if tp1Hit then { tr with hit_tp1 := true } else tr
    let tp2Hit := !tr1.hit_tp2 && !tr1.closed &&
        (if buy then _crossed tr1.tp2 prev price true
         else _crossed tr1.tp2 prev price false)
    let tr2 := if tp2Hit then { tr1 with hit_tp2 := true } else tr1
    let tp3Hit := !tr2.hit_tp3 && !tr2.closed &&
        (if buy then _crossed tr2.tp3 prev price true
         else _crossed tr2.tp3 prev price false)
    let tr3 := if tp3Hit then { tr2 with hit_tp3 := true, closed := true } else tr2
    ((if tp1Hit then ["TP1"] else []) ++ (if tp2Hit then ["TP2"] else []) ++
       (if tp3Hit then ["TP3"] else []), tr3)

/-- Iterates check_hits over a sequence of price observations, returning
the final trade state. -/
def run_checks (tr : VirtualTrade) : List ℚ → VirtualTrade
  | [] => tr
  | p :: ps => run_checks (check_hits tr p).2 ps

/-- Iterates check_hits over a sequence of price observations, returning
the concatenation of all emitted event lists in order. -/
def run_events (tr : VirtualTrade) : List ℚ → List String
  | [] => []
  | p :: ps => (check_hits tr p).1 ++ run_events (check_hits tr p).2 ps

/-- Python trailing slice xs[-n:]: the whole list when n is 0 (since -0 is 0),
otherwise the last n elements (the whole list when n exceeds the length). -/
def slice_last {α : Type} (n : Nat) (xs : List α) : List α :=
  if n = 0 then xs else xs.drop (xs.length - n)

/-- Embeds bot._true_range. -/
def _true_range (curr : Candle) (prev_close : ℚ) : ℚ :=
  max (curr.h - curr.l) (max |curr.h - prev_close| |curr.l - prev_close|)

/-- The list of pairwise true ranges built by the loops in bot.atr and
bot.vortex: element i is the true range of candles[i+1] against the close
of candles[i]. -/
def tr_list (candles : List Candle) : List ℚ :=
  List.zipWith (fun c p => _true_range c p.c) candles.tail candles

/-- The VM+ list built by the loop in bot.vortex. -/
def vm_plus_list (candles : List Candle) : List ℚ :=
  List.zipWith (fun c p => |c.h - p.l|) candles.tail candles

/-- The VM- list built by the loop in bot.vortex. -/
def vm_minus_list (candles : List Candle) : List ℚ :=
  List.zipWith (fun c p => |c.l - p.h|) candles.tail candles

/-- Embeds bot.atr: raises (returns none) on fewer than length+1 candles,
otherwise the mean of the trailing length true ranges.  The extra guard on
an empty window models the ZeroDivisionError Python would raise there. -/
def atr (candles : List Candle) (length : Nat) : Option ℚ :=
  if candles.length < length + 1 then none
  else
    let window := slice_last length (tr_list candles)
    if window.length = 0 then none
    else some (window.sum / (window.length : ℚ))

/-- Embeds bot.vortex: trailing sums of VM+, VM- and TR, substituting 1e-9
for a zero TR sum, returning the two ratios. -/
def vortex (candles : List Candle) (length : Nat) : Option (ℚ × ℚ) :=
  if candles.length < length + 1 then none
  else
    let svp := (slice_last length (vm_plus_list candles)).sum
    let svm := (slice_last length (vm_minus_list candles)).sum
    let str := (slice_last length (tr_list candles)).sum
    let sum_tr := if str ≠ 0 then str else 1 / 1000000000
    some (svp / sum_tr, svm / sum_tr)

/-- Embeds bot.ema: raises (returns none) on fewer than length values,
otherwise seeds with the first value of the WHOLE list and folds the
recurrence over all remaining values (the source does not slice a window;
its caller does). -/
def ema (values : List ℚ) (length : Nat) : Option ℚ :=
  if values.length < length then none
  else
    match values with
    | [] => none
    | v0 :: rest =>
        some (rest.foldl
          (fun e v => v * (2 / ((length : ℚ) + 1)) + e * (1 - 2 / ((length : ℚ) + 1))) v0)

/-- Embeds bot.atr_percent. -/
def atr_percent (atr_val : ℚ) (price : ℚ) : ℚ :=
  if price = 0 then 0 else atr_val / price

/-- The environment-derived configuration read at the top of bot.py,
restricted to the fields the analysis pipeline uses. -/
structure Config where
  VI_LENGTH : Nat
  ATR_LENGTH : Nat
  EMA_LENGTH : Nat
  ATR_SL_MULT : ℚ
  ATR_TP1_MULT : ℚ
  ATR_TP2_MULT : ℚ
  ATR_TP3_MULT : ℚ
  MIN_STRENGTH : ℚ
  MIN_ATR_PCT : ℚ
  MIN_SCORE : Int
  MTF_FILTER : Bool
deriving DecidableEq

/-- Embeds bot.decide_signal: WAIT below the strength threshold, otherwise
the direction of the larger vortex component, paired with the strength. -/
def decide_signal (minStrength : ℚ) (vi_p vi_m : ℚ) : String × ℚ :=
  let strength := |vi_p - vi_m|
  if strength < minStrength then ("WAIT", strength)
  else ((if vi_p > vi_m then "BUY" else "SELL"), strength)

/-- The trade plan dictionary built by bot.build_trade_plan. -/
structure TradePlan where
  entry : ℚ
  sl : ℚ
  tp1 : ℚ
  tp2 : ℚ
  tp3 : ℚ
deriving DecidableEq

/-- Embeds bot.build_trade_plan. -/
def build_trade_plan (cfg : Config) (last_price : ℚ) (direction : String)
    (atr_val : ℚ) : TradePlan :=
  if direction = "BUY" then
    { entry := last_price, sl := last_price - atr_val * cfg.ATR_SL_MULT,
      tp1 := last_price + atr_val * cfg.ATR_TP1_MULT,
      tp2 := last_price + atr_val * cfg.ATR_TP2_MULT,
      tp3 := last_price + atr_val * cfg.ATR_TP3_MULT }
  else
    { entry := last_price, sl := last_price + atr_val * cfg.ATR_SL_MULT,
      tp1 := last_price - atr_val * cfg.ATR_TP1_MULT,
      tp2 := last_price - atr_val * cfg.ATR_TP2_MULT,
      tp3 := last_price - atr_val * cfg.ATR_TP3_MULT }

/-- The direction computed on line 293 of bot.py, independent of the
strength gate. -/
def direction_of (vi_p vi_m : ℚ) : String :=
  if vi_p > vi_m then "BUY" else "SELL"

/-- The trend filter computed on line 297 of bot.py: last price above the
EMA for a BUY direction, below it for a SELL direction. -/
def trend_ok_calc (direction : String) (last_price ema_val : ℚ) : Bool :=
  if direction = "BUY" then decide (last_price > ema_val)
  else decide (last_price < ema_val)

/-- The higher-timeframe confirmation block of bot.analyze_once: when the
MTF filter is enabled, fetch the higher-timeframe candles (here an input),
compute their vortex pair and compare directions; otherwise always true. -/
def mtf_check (cfg : Config) (candles_htf : List Candle) (direction : String) :
    Option Bool :=
  if cfg.MTF_FILTER then
    (vortex candles_htf cfg.VI_LENGTH).map
      (fun vi2 => direction_of vi2.1 vi2.2 == direction)
  else some true

/-- The additive score of bot.analyze_once lines 309-314. -/
def score_calc (cfg : Config) (mtf_ok trend_ok vol_ok body_ok : Bool)
    (strength : ℚ) : Int :=
  (if mtf_ok then 30 else 0) + (if trend_ok then 25 else 0) +
    (if strength ≥ cfg.MIN_STRENGTH + 1 / 10 then 20
     else if strength ≥ cfg.MIN_STRENGTH then 10 else 0) +
    (if vol_ok then 15 else 0) + (if body_ok then 10 else 0)

/-- Embeds bot.analyze_once as a function of the two fetched candle
sequences (primary and higher timeframe) and the configuration; the
network fetches are inputs here.  Any exception along the way (empty
candles, insufficient data for an indicator) is none. -/
def analyze_once (cfg : Config) (candles candles_htf : List Candle) :
    Option (String × TradePlan × ℚ × ℚ × ℚ × ℚ × Int) :=
  match candles.getLast? with
  | none => none
  | some last =>
    match vortex candles cfg.VI_LENGTH with
    | none => none
    | some vi =>
      match atr candles cfg.ATR_LENGTH with
      | none => none
      | some atr_val =>
        match ema (slice_last cfg.EMA_LENGTH (candles.map fun x => x.c))
            cfg.EMA_LENGTH with
        | none => none
        | some ema_val =>
          match mtf_check cfg candles_htf (direction_of vi.1 vi.2) with
          | none => none
          | some mtf_ok =>
            let sig := decide_signal cfg.MIN_STRENGTH vi.1 vi.2
            let direction := direction_of vi.1 vi.2
            let plan := build_trade_plan cfg last.c direction atr_val
            let trend_ok := trend_ok_calc direction last.c ema_val
            let vol_ok := decide (atr_percent atr_val last.c ≥ cfg.MIN_ATR_PCT)
            let body_ok := decide ((direction = "BUY" ∧ last.c ≥ last.o) ∨
              (direction = "SELL" ∧ last.c ≤ last.o))
            let score := score_calc cfg mtf_ok trend_ok vol_ok body_ok sig.2
            if sig.1 = "WAIT" ∨ (cfg.MTF_FILTER = true ∧ mtf_ok = false) ∨
                trend_ok = false ∨ vol_ok = false ∨ score < cfg.MIN_SCORE then
              some ("WAIT", plan, sig.2, vi.1, vi.2, atr_val, score)
            else
              some (sig.1, plan, sig.2, vi.1, vi.2, atr_val, score)

/-- Embeds the identity test inside the loop of trade_tracker.update_trade:
created_at, symbol, side and entry must all match exactly; timeframe and
the other fields are not compared. -/
def trade_match (t u : VirtualTrade) : Bool :=
  t.created_at == u.created_at && t.symbol == u.symbol &&
    t.side == u.side && t.entry == u.entry

/-- Embeds trade_tracker.update_trade on the loaded trade list: replace the
first record matching the identity test wholesale (the loop breaks after
the first match), leave everything else unchanged. -/
def update_trade : List VirtualTrade → VirtualTrade → List VirtualTrade
  | [], _ => []
  | t :: ts, u => if trade_match t u then u :: ts else t :: update_trade ts u

/-- Index (and created_at key) of the record trade_tracker.add_trade
force-closes: the first open record carrying the minimal created_at among
open records, matching sorted(active, key=created_at)[0] under the stable sort of Python. -/
def oldest_open_idx : List VirtualTrade → Option (Nat × ℚ)
  | [] => none
  | t :: ts =>
    match oldest_open_idx ts with
    | none => if t.closed then none else some (0, t.created_at)
    | some jk =>
      if t.closed then some (jk.1 + 1, jk.2)
      else if t.created_at ≤ jk.2 then some (0, t.created_at)
      else some (jk.1 + 1, jk.2)

/-- Marks the record at the given index closed, leaving the rest unchanged
(the in-place dict mutation of trade_tracker.add_trade). -/
def set_closed_at : Nat → List VirtualTrade → List VirtualTrade
  | _, [] => []
  | 0, t :: ts => { t with closed := true } :: ts
  | n + 1, t :: ts => t :: set_closed_at n ts

/-- Embeds trade_tracker.add_trade on the loaded trade list: when the open
count has reached the maximum, force-close the oldest open record before
appending; none models the IndexError Python raises when the maximum is
zero and no open record exists. -/
def add_trade (maxActive : Nat) (trades : List VirtualTrade)
    (t : VirtualTrade) : Option (List VirtualTrade) :=
  let active := trades.filter fun x => !x.closed
  if maxActive ≤ active.length then
    match oldest_open_idx trades with
    | some jk => some (set_closed_at jk.1 trades ++ [t])
    | none => none
  else some (trades ++ [t])

/-- The persisted state dictionary of storage.py, reduced to its trades
collection. -/
structure StoreState where
  trades : List VirtualTrade
deriving DecidableEq

/-- Outcome of attempting to read and JSON-parse the state file, the
abstraction of the filesystem layer storage.load_state talks to: the file
may be absent, the read or parse may raise, or a state is parsed. -/
inductive ReadResult where
  | missing : ReadResult
  | failure : ReadResult
  | parsed : StoreState → ReadResult
deriving DecidableEq

/-- Embeds storage.load_state: the empty state when the file is absent,
the empty state when the read or parse raises, the parsed state otherwise. -/
def load_state : ReadResult → StoreState
  | ReadResult.missing => { trades := [] }
  | ReadResult.failure => { trades := [] }
  | ReadResult.parsed s => s

/-- Modelled from the spec: exponentialMovingAverage over the trailing
window of the last length values — seed with the first value IN THE
WINDOW, recurrence over the remaining values of the window.  Kept separate
from the ema of the source for comparison. -/
def ema_window_spec (values : List ℚ) (length : Nat) : Option ℚ :=
  if values.length < length then none
  else
    match slice_last length values with
    | [] => none
    | v0 :: rest =>
        some (rest.foldl
          (fun e v => v * (2 / ((length : ℚ) + 1)) + e * (1 - 2 / ((length : ℚ) + 1))) v0)

/-- Multiplies every OHLC field of a candle by a constant. -/
def scale_candle (k : ℚ) (x : Candle) : Candle :=
  { t := x.t, o := k * x.o, h := k * x.h, l := k * x.l, c := k * x.c }

/-- Multiplies every OHLC value of a candle sequence by a constant. -/
def scale_candles (k : ℚ) (candles : List Candle) : List Candle :=
  candles.map (scale_candle k)

/-- The five hit and close flags only ever move from false to true between
the two states. -/
def flags_le (s t : VirtualTrade) : Prop :=
  (s.hit_tp1 = true → t.hit_tp1 = true) ∧ (s.hit_tp2 = true → t.hit_tp2 = true) ∧
    (s.hit_tp3 = true → t.hit_tp3 = true) ∧ (s.hit_sl = true → t.hit_sl = true) ∧
    (s.closed = true → t.closed = true)

/-- Internal invariant of the tracker state: a stop-loss or final-target
hit implies the trade is closed, and the two never hold together. -/
def sl_tp3_inv (s : VirtualTrade) : Prop :=
  (s.hit_sl = true → s.closed = true) ∧ (s.hit_tp3 = true → s.closed = true) ∧
    ¬(s.hit_sl = true ∧ s.hit_tp3 = true)

/-- Trend gate of the analysis: the last close is on the right side of the
EMA of the trailing window of closes. -/
def trend_gate (cfg : Config) (candles : List Candle) (vi_p vi_m : ℚ) : Prop :=
  ∃ last ev, candles.getLast? = some last ∧
    ema (slice_last cfg.EMA_LENGTH (candles.map fun x => x.c)) cfg.EMA_LENGTH =
      some ev ∧
    (if direction_of vi_p vi_m = "BUY" then last.c > ev else last.c < ev)

/-- Volatility gate of the analysis: ATR as a fraction of the last close
reaches the configured minimum. -/
def vol_gate (cfg : Config) (candles : List Candle) (atr_val : ℚ) : Prop :=
  ∃ last, candles.getLast? = some last ∧
    atr_percent atr_val last.c ≥ cfg.MIN_ATR_PCT

/-- Sample BUY trade used to instantiate tracker theorems: the plan of the
worked example in the spec. -/
def sample_trade : VirtualTrade :=
  { symbol := "XAU/USD", tf := "5m", side := "BUY", score := 80,
    entry := 2000, sl := 1980, tp1 := 2010, tp2 := 2020, tp3 := 2030,
    created_at := 1 }

/-- Sample configuration used to instantiate analysis theorems. -/
def sample_cfg : Config :=
  { VI_LENGTH := 1, ATR_LENGTH := 1, EMA_LENGTH := 2,
    ATR_SL_MULT := 1, ATR_TP1_MULT := 1, ATR_TP2_MULT := 2, ATR_TP3_MULT := 3,
    MIN_STRENGTH := 0, MIN_ATR_PCT := 0, MIN_SCORE := 0, MTF_FILTER := false }

/-- Sample two-candle sequence used to instantiate analysis theorems. -/
def sample_candles : List Candle :=
  [{ t := "a", o := 1, h := 3, l := 1, c := 2 },
   { t := "b", o := 2, h := 4, l := 2, c := 4 }]

/-- Degenerate two-candle sequence whose trailing true range is zero while
its VM sums are not: high and low of the second candle and close of the
first candle all coincide. -/
def degenerate_candles : List Candle :=
  [{ t := "p", o := 0, h := 2, l := 0, c := 1 },
   { t := "q", o := 1, h := 1, l := 1, c := 1 }]

/-- Stored record used to instantiate the store theorems. -/
def sample_stored : VirtualTrade :=
  { symbol := "XAU/USD", tf := "5m", side := "BUY", score := 80,
    entry := 2000, sl := 1980, tp1 := 2010, tp2 := 2020, tp3 := 2030,
    created_at := 7 }

/-- Update argument agreeing with sample_stored on created_at, symbol,
side and entry but differing in timeframe (and stop level). -/
def sample_update : VirtualTrade :=
  { symbol := "XAU/USD", tf := "1h", side := "BUY", score := 80,
    entry := 2000, sl := 1990, tp1 := 2010, tp2 := 2020, tp3 := 2030,
    created_at := 7 }

/-! Theorems. -/

/-- C1: with no previous observation the crossing predicate reports a hit
iff the new price has reached or passed the level in the checked direction
(now at or above the level upward, at or below downward); with a previous
observation an upward crossing holds iff prev < level ≤ now and a downward
crossing iff prev > level ≥ now. -/
theorem crossed_semantics (level now p : ℚ) :
    (_crossed level none now true = true ↔ now ≥ level) ∧
    (_crossed level none now false = true ↔ now ≤ level) ∧
    (_crossed level (some p) now true = true ↔ p < level ∧ level ≤ now) ∧
    (_crossed level (some p) now false = true ↔ p > level ∧ level ≥ now) := by
  refine ⟨?_, ?_, ?_, ?_⟩ <;> simp [_crossed]
set_option maxHeartbeats 1600000 in
/-- Normal form of check_hits: every guard expressed on the incoming trade
record (the sequential in-place updates of the source only touch fields no
later guard reads, which this lemma makes explicit). -/
theorem check_hits_eq (tr : VirtualTrade) (price : ℚ) :
    check_hits tr price =
      (let buy := _is_buy tr.side
       let slHit := !tr.hit_sl && !tr.closed &&
         (if buy then _crossed tr.sl tr.last_price price false
          else _crossed tr.sl tr.last_price price true)
       let tp1Hit := !tr.hit_tp1 && !tr.closed &&
         (if buy then _crossed tr.tp1 tr.last_price price true
          else _crossed tr.tp1 tr.last_price price false)
       let tp2Hit := !tr.hit_tp2 && !tr.closed &&
         (if buy then _crossed tr.tp2 tr.last_price price true
          else _crossed tr.tp2 tr.last_price price false)
       let tp3Hit := !tr.hit_tp3 && !tr.closed &&
         (if buy then _crossed tr.tp3 tr.last_price price true
          else _crossed tr.tp3 tr.last_price price false)
       if slHit then
         (["SL"],
          { tr with last_price := some price, hit_sl := true, closed := true })
       else
         ((if tp1Hit then ["TP1"] else []) ++ (if tp2Hit then ["TP2"] else []) ++
            (if tp3Hit then ["TP3"] else []),
          { tr with
            last_price := some price,
            hit_tp1 := tr.hit_tp1 || tp1Hit,
            hit_tp2 := tr.hit_tp2 || tp2Hit,
            hit_tp3 := tr.hit_tp3 || tp3Hit,
            closed := tr.closed || tp3Hit })) := by
  simp only [check_hits]
  split_ifs <;> first | rfl | simp_all

set_option maxHeartbeats 800000 in
/-- C2: on an open trade with the stop-loss not yet hit, the stop-loss is
evaluated first (downward for BUY, upward for SELL); if it fires the call
returns exactly the list SL, sets hit_sl and closed, and leaves every
take-profit flag untouched; otherwise TP1, TP2 and TP3 are checked
independently against the same observation in that order and the events
come out in that order. -/
theorem check_hits_sl_priority (tr : VirtualTrade) (price : ℚ)
    (hcl : tr.closed = false) (hsl : tr.hit_sl = false) :
    ((if _is_buy tr.side then _crossed tr.sl tr.last_price price false
      else _crossed tr.sl tr.last_price price true) = true →
      check_hits tr price =
        (["SL"],
         { tr with last_price := some price, hit_sl := true, closed := true })) ∧
    ((if _is_buy tr.side then _crossed tr.sl tr.last_price price false
      else _crossed tr.sl tr.last_price price true) = false →
      (check_hits tr price).1 =
        (if !tr.hit_tp1 &&
            (if _is_buy tr.side then _crossed tr.tp1 tr.last_price price true
             else _crossed tr.tp1 tr.last_price price false) then ["TP1"] else []) ++
        (if !tr.hit_tp2 &&
            (if _is_buy tr.side then _crossed tr.tp2 tr.last_price price true
             else _crossed tr.tp2 tr.last_price price false) then ["TP2"] else []) ++
        (if !tr.hit_tp3 &&
            (if _is_buy tr.side then _crossed tr.tp3 tr.last_price price true
             else _crossed tr.tp3 tr.last_price price false) then ["TP3"] else [])) := by
  rw [check_hits_eq]
  constructor
  · intro h
    simp [hcl, hsl, h]
  · intro h
    simp [hcl, hsl, h]

/-- Witness for C2 at the worked example of the spec: a BUY trade with stop
1980 first observed at 1975 returns exactly the SL event and closes. -/
theorem check_hits_sl_priority_witness :
    sample_trade.closed = false ∧ sample_trade.hit_sl = false ∧
    check_hits sample_trade 1975 =
      (["SL"],
       { sample_trade with
         last_price := some 1975,
         hit_sl := true,
         closed := true }) :=
  ⟨rfl, rfl, (check_hits_sl_priority sample_trade 1975 rfl rfl).1 (by decide)⟩

/-- Hit and close flags only ever move from false to true across one call. -/
theorem flags_le_step (s : VirtualTrade) (p : ℚ) :
    flags_le s (check_hits s p).2 := by
  rw [check_hits_eq]
  simp only [flags_le]
  split_ifs <;> simp_all

/-- Once a trade is closed, a further call only refreshes the last
observed price: flags and closed are untouched. -/
theorem closed_frozen_step (s : VirtualTrade) (p : ℚ) (h : s.closed = true) :
    (check_hits s p).2 = { s with last_price := some p } := by
  rw [check_hits_eq]
  simp [h]

/-- One call preserves the stop-loss and final-target exclusivity
invariant. -/
theorem sl_tp3_inv_step (s : VirtualTrade) (p : ℚ) (h : sl_tp3_inv s) :
    sl_tp3_inv (check_hits s p).2 := by
  obtain ⟨h1, h2, h3⟩ := h
  rw [check_hits_eq]
  simp only [sl_tp3_inv]
  split_ifs with hslf <;> simp_all <;>
    cases hsl : s.hit_sl <;> cases htp3 : s.hit_tp3 <;> simp_all

/-- Any number of calls preserves the exclusivity invariant. -/
theorem sl_tp3_inv_run (s : VirtualTrade) (ps : List ℚ) (h : sl_tp3_inv s) :
    sl_tp3_inv (run_checks s ps) := by
  induction ps generalizing s with
  | nil => exact h
  | cons p ps ih => exact ih _ (sl_tp3_inv_step s p h)

/-- C3: from a freshly opened trade, along any sequence of check_hits
calls the five flags are monotone (false to true only), a closed state
freezes every flag (a further call only refreshes the last observed
price), and no reachable state carries hit_sl and hit_tp3 together. -/
theorem tracker_invariants (tr : VirtualTrade) (prices : List ℚ) (p : ℚ)
    (_h1 : tr.hit_tp1 = false) (_h2 : tr.hit_tp2 = false)
    (h3 : tr.hit_tp3 = false) (h4 : tr.hit_sl = false)
    (h5 : tr.closed = false) :
    flags_le (run_checks tr prices) (check_hits (run_checks tr prices) p).2 ∧
    ((run_checks tr prices).closed = true →
      (check_hits (run_checks tr prices) p).2 =
        { run_checks tr prices with last_price := some p }) ∧
    ¬((run_checks tr prices).hit_sl = true ∧
      (run_checks tr prices).hit_tp3 = true) ∧
    ¬((check_hits (run_checks tr prices) p).2.hit_sl = true ∧
      (check_hits (run_checks tr prices) p).2.hit_tp3 = true) := by
  have hinv : sl_tp3_inv (run_checks tr prices) := by
    refine sl_tp3_inv_run tr prices ?_
    refine ⟨?_, ?_, ?_⟩ <;> simp [h3, h4, h5]
  refine ⟨flags_le_step _ p, closed_frozen_step _ p, hinv.2.2, ?_⟩
  exact (sl_tp3_inv_step _ p hinv).2.2

/-- Witness for C3 at the worked example trade of the spec after two ticks. -/
theorem tracker_invariants_witness :
    (sample_trade.hit_tp1 = false ∧ sample_trade.hit_tp2 = false ∧
     sample_trade.hit_tp3 = false ∧ sample_trade.hit_sl = false ∧
     sample_trade.closed = false) ∧
    ¬((run_checks sample_trade [2005, 2012]).hit_sl = true ∧
      (run_checks sample_trade [2005, 2012]).hit_tp3 = true) :=
  ⟨⟨rfl, rfl, rfl, rfl, rfl⟩,
   (tracker_invariants sample_trade [2005] 2012 rfl rfl rfl rfl rfl).2.2.2⟩

/-- One call emits TP1 exactly when it flips the hit_tp1 flag from false
to true, and otherwise leaves the flag as it was. -/
theorem step_count_tp1 (s : VirtualTrade) (p : ℚ) :
    ((check_hits s p).1.count "TP1" = 0 ∧ (check_hits s p).2.hit_tp1 = s.hit_tp1) ∨
    ((check_hits s p).1.count "TP1" = 1 ∧ s.hit_tp1 = false ∧
      (check_hits s p).2.hit_tp1 = true) := by
  simp only [check_hits_eq]
  split_ifs <;> simp_all

/-- One call emits TP2 exactly when it flips the hit_tp2 flag. -/
theorem step_count_tp2 (s : VirtualTrade) (p : ℚ) :
    ((check_hits s p).1.count "TP2" = 0 ∧ (check_hits s p).2.hit_tp2 = s.hit_tp2) ∨
    ((check_hits s p).1.count "TP2" = 1 ∧ s.hit_tp2 = false ∧
      (check_hits s p).2.hit_tp2 = true) := by
  simp only [check_hits_eq]
  split_ifs <;> simp_all

/-- One call emits TP3 exactly when it flips the hit_tp3 flag. -/
theorem step_count_tp3 (s : VirtualTrade) (p : ℚ) :
    ((check_hits s p).1.count "TP3" = 0 ∧ (check_hits s p).2.hit_tp3 = s.hit_tp3) ∨
    ((check_hits s p).1.count "TP3" = 1 ∧ s.hit_tp3 = false ∧
      (check_hits s p).2.hit_tp3 = true) := by
  simp only [check_hits_eq]
  split_ifs <;> simp_all

/-- One call emits SL exactly when it flips the hit_sl flag. -/
theorem step_count_sl (s : VirtualTrade) (p : ℚ) :
    ((check_hits s p).1.count "SL" = 0 ∧ (check_hits s p).2.hit_sl = s.hit_sl) ∨
    ((check_hits s p).1.count "SL" = 1 ∧ s.hit_sl = false ∧
      (check_hits s p).2.hit_sl = true) := by
  simp only [check_hits_eq]
  split_ifs <;> simp_all

/-- Across a whole run TP1 appears at most once, and never once the flag
is already set. -/
theorem run_count_tp1 (tr : VirtualTrade) (prices : List ℚ) :
    (run_events tr prices).count "TP1" ≤ if tr.hit_tp1 = true then 0 else 1 := by
  induction prices generalizing tr with
  | nil => simp [run_events]
  | cons p ps ih =>
    have hstep := step_count_tp1 tr p
    have hrest := ih (check_hits tr p).2
    simp only [run_events, List.count_append]
    rcases hstep with ⟨hc, hf⟩ | ⟨hc, hf0, hf1⟩
    · rw [hf] at hrest
      rw [hc]
      cases h : tr.hit_tp1 <;> simp [h] at hrest ⊢ <;> omega
    · rw [hf1] at hrest
      simp at hrest
      rw [hc, hf0]
      simp [hrest]
  
/-- Across a whole run TP2 appears at most once. -/
theorem run_count_tp2 (tr : VirtualTrade) (prices : List ℚ) :
    (run_events tr prices).count "TP2" ≤ if tr.hit_tp2 = true then 0 else 1 := by
  induction prices generalizing tr with
  | nil => simp [run_events]
  | cons p ps ih =>
    have hstep := step_count_tp2 tr p
    have hrest := ih (check_hits tr p).2
    simp only [run_events, List.count_append]
    rcases hstep with ⟨hc, hf⟩ | ⟨hc, hf0, hf1⟩
    · rw [hf] at hrest
      rw [hc]
      cases h : tr.hit_tp2 <;> simp [h] at hrest ⊢ <;> omega
    · rw [hf1] at hrest
      simp at hrest
      rw [hc, hf0]
      simp [hrest]

/-- Across a whole run TP3 appears at most once. -/
theorem run_count_tp3 (tr : VirtualTrade) (prices : List ℚ) :
    (run_events tr prices).count "TP3" ≤ if tr.hit_tp3 = true then 0 else 1 := by
  induction prices generalizing tr with
  | nil => simp [run_events]
  | cons p ps ih =>
    have hstep := step_count_tp3 tr p
    have hrest := ih (check_hits tr p).2
    simp only [run_events, List.count_append]
    rcases hstep with ⟨hc, hf⟩ | ⟨hc, hf0, hf1⟩
    · rw [hf] at hrest
      rw [hc]
      cases h : tr.hit_tp3 <;> simp [h] at hrest ⊢ <;> omega
    · rw [hf1] at hrest
      simp at hrest
      rw [hc, hf0]
      simp [hrest]

/-- Across a whole run SL appears at most once. -/
theorem run_count_sl (tr : VirtualTrade) (prices : List ℚ) :
    (run_events tr prices).count "SL" ≤ if tr.hit_sl = true then 0 else 1 := by
  induction prices generalizing tr with
  | nil => simp [run_events]
  | cons p ps ih =>
    have hstep := step_count_sl tr p
    have hrest := ih (check_hits tr p).2
    simp only [run_events, List.count_append]
    rcases hstep with ⟨hc, hf⟩ | ⟨hc, hf0, hf1⟩
    · rw [hf] at hrest
      rw [hc]
      cases h : tr.hit_sl <;> simp [h] at hrest ⊢ <;> omega
    · rw [hf1] at hrest
      simp at hrest
      rw [hc, hf0]
      simp [hrest]

/-- C4: over any sequence of check_hits calls on any trade, each event
label is emitted at most once, and an already-set hit flag means the
corresponding event is never emitted again. -/
theorem lifecycle_events_once (tr : VirtualTrade) (prices : List ℚ) :
    ((run_events tr prices).count "SL" ≤ 1 ∧
     (run_events tr prices).count "TP1" ≤ 1 ∧
     (run_events tr prices).count "TP2" ≤ 1 ∧
     (run_events tr prices).count "TP3" ≤ 1) ∧
    ((tr.hit_sl = true → (run_events tr prices).count "SL" = 0) ∧
     (tr.hit_tp1 = true → (run_events tr prices).count "TP1" = 0) ∧
     (tr.hit_tp2 = true → (run_events tr prices).count "TP2" = 0) ∧
     (tr.hit_tp3 = true → (run_events tr prices).count "TP3" = 0)) := by
  have hsl := run_count_sl tr prices
  have h1 := run_count_tp1 tr prices
  have h2 := run_count_tp2 tr prices
  have h3 := run_count_tp3 tr prices
  constructor
  · refine ⟨?_, ?_, ?_, ?_⟩ <;> split_ifs at * <;> omega
  · refine ⟨?_, ?_, ?_, ?_⟩ <;> intro hx <;> simp [hx] at * <;> omega

/-- Witness for C4: a trade whose TP1 flag is already set emits no TP1
event on a price path crossing its first target. -/
theorem lifecycle_events_once_witness :
    ({ sample_trade with hit_tp1 := true } : VirtualTrade).hit_tp1 = true ∧
    (run_events { sample_trade with hit_tp1 := true } [1995, 2025]).count "TP1" = 0 :=
  ⟨rfl,
   (lifecycle_events_once { sample_trade with hit_tp1 := true } [1995, 2025]).2.2.1 rfl⟩

/-- Counterexample for C6: the source ema seeds at the head of the whole
list, so on the three-element list [3, 0, 0] with length 2 it returns 1/3
while the trailing-window EMA of the spec returns 0. -/
theorem ema_window_counterexample :
    (([3, 0, 0] : List ℚ).length ≥ 2) ∧
    ema [3, 0, 0] 2 = some (1 / 3) ∧
    ema_window_spec [3, 0, 0] 2 = some 0 ∧
    ema [3, 0, 0] 2 ≠ ema_window_spec [3, 0, 0] 2 := by
  refine ⟨by norm_num, ?_, ?_, ?_⟩
  · norm_num [ema]
  · norm_num [ema_window_spec, slice_last]
  · norm_num [ema, ema_window_spec, slice_last]

/-- C6 (amended): ema fails with InsufficientData (none) on a list shorter
than length, otherwise runs the recurrence with smoothing 2/(length+1)
seeded with the first value of the WHOLE list over all remaining values;
it coincides with the trailing-window EMA of the spec exactly when the list has
length exactly length, the shape of every call site in analyze_once. -/
theorem ema_eval (values : List ℚ) (length : Nat) :
    (values.length < length → ema values length = none) ∧
    (∀ v0 rest, values = v0 :: rest → length ≤ values.length →
      ema values length =
        some (rest.foldl
          (fun e v => v * (2 / ((length : ℚ) + 1)) +
            e * (1 - 2 / ((length : ℚ) + 1))) v0)) ∧
    (values.length = length → ema values length = ema_window_spec values length) := by
  refine ⟨?_, ?_, ?_⟩
  · intro h
    simp [ema, h]
  · rintro v0 rest rfl h
    have hng : ¬ ((v0 :: rest).length < length) := by omega
    simp [ema, hng]
    all_goals simpa using h
  · intro h
    have hng : ¬ (values.length < length) := by omega
    have hs : slice_last length values = values := by
      rcases Nat.eq_zero_or_pos length with h0 | h0
      · simp [slice_last, h0]
      · simp [slice_last, Nat.pos_iff_ne_zero.mp h0, h]
    simp [ema, ema_window_spec, hng, hs]

/-- Witness for C6 at a concrete full-window call: on a two-element list
with length 2 the source ema agrees with the windowed EMA of the spec. -/
theorem ema_eval_witness :
    (([1, 2] : List ℚ).length = 2) ∧ ema [1, 2] 2 = ema_window_spec [1, 2] 2 :=
  ⟨rfl, (ema_eval [1, 2] 2).2.2 rfl⟩

/-- zipWith over two mapped lists fuses into a single zipWith. -/
theorem zipWith_map_both {α β γ : Type} (f : β → β → γ) (g : α → β)
    (xs ys : List α) :
    List.zipWith f (xs.map g) (ys.map g) =
      List.zipWith (fun a b => f (g a) (g b)) xs ys := by
  induction xs generalizing ys with
  | nil => simp
  | cons x xs ih => cases ys <;> simp [ih]

/-- zipWith respects pointwise-equal combining functions. -/
theorem zipWith_ext {α β γ : Type} (f g : α → β → γ)
    (h : ∀ a b, f a b = g a b) (xs : List α) (ys : List β) :
    List.zipWith f xs ys = List.zipWith g xs ys := by
  induction xs generalizing ys with
  | nil => simp
  | cons x xs ih => cases ys <;> simp [ih, h]

/-- Mapping then zipWith fuses. -/
theorem map_zipWith_fuse {α β γ δ : Type} (g : γ → δ) (f : α → β → γ)
    (xs : List α) (ys : List β) :
    (List.zipWith f xs ys).map g = List.zipWith (fun a b => g (f a b)) xs ys := by
  induction xs generalizing ys with
  | nil => simp
  | cons x xs ih => cases ys <;> simp [ih]

/-- Sum of a left-scaled list. -/
theorem sum_map_mul_const (k : ℚ) (l : List ℚ) :
    (l.map fun q => k * q).sum = k * l.sum := by
  induction l with
  | nil => simp
  | cons x xs ih => simp [ih, mul_add]

/-- The Python trailing slice commutes with map. -/
theorem slice_last_map {α β : Type} (g : α → β) (n : Nat) (xs : List α) :
    slice_last n (xs.map g) = (slice_last n xs).map g := by
  simp only [slice_last, List.length_map]
  split_ifs <;> simp [List.map_drop]

/-- True range scales linearly under a nonnegative scaling of candle and
previous close. -/
theorem _true_range_scale (k : ℚ) (hk : 0 ≤ k) (x : Candle) (pc : ℚ) :
    _true_range (scale_candle k x) (k * pc) = k * _true_range x pc := by
  simp only [_true_range, scale_candle, ← mul_sub]
  rw [abs_mul, abs_mul, abs_of_nonneg hk, mul_max_of_nonneg _ _ hk,
    mul_max_of_nonneg _ _ hk]

/-- The pairwise true-range list of a scaled candle sequence is the scaled
true-range list. -/
theorem tr_list_scale (k : ℚ) (hk : 0 ≤ k) (candles : List Candle) :
    tr_list (scale_candles k candles) = (tr_list candles).map fun q => k * q := by
  unfold tr_list scale_candles
  rw [← List.map_tail, zipWith_map_both, map_zipWith_fuse]
  refine zipWith_ext _ _ (fun a b => ?_) _ _
  have hc : (scale_candle k b).c = k * b.c := rfl
  rw [hc]
  exact _true_range_scale k hk a b.c

/-- The VM+ list of a scaled candle sequence is the scaled VM+ list. -/
theorem vm_plus_list_scale (k : ℚ) (hk : 0 ≤ k) (candles : List Candle) :
    vm_plus_list (scale_candles k candles) =
      (vm_plus_list candles).map fun q => k * q := by
  unfold vm_plus_list scale_candles
  rw [← List.map_tail, zipWith_map_both, map_zipWith_fuse]
  refine zipWith_ext _ _ (fun a b => ?_) _ _
  simp only [scale_candle, ← mul_sub]
  rw [abs_mul, abs_of_nonneg hk]

/-- The VM- list of a scaled candle sequence is the scaled VM- list. -/
theorem vm_minus_list_scale (k : ℚ) (hk : 0 ≤ k) (candles : List Candle) :
    vm_minus_list (scale_candles k candles) =
      (vm_minus_list candles).map fun q => k * q := by
  unfold vm_minus_list scale_candles
  rw [← List.map_tail, zipWith_map_both, map_zipWith_fuse]
  refine zipWith_ext _ _ (fun a b => ?_) _ _
  simp only [scale_candle, ← mul_sub]
  rw [abs_mul, abs_of_nonneg hk]

/-- Counterexample for C7: on a degenerate sequence whose trailing true
range is zero, the epsilon substitution breaks scale invariance — doubling
all OHLC values doubles both vortex ratios. -/
theorem vortex_scale_counterexample :
    ((0 : ℚ) < 2) ∧ (1 + 1 ≤ degenerate_candles.length) ∧
    vortex degenerate_candles 1 = some (1000000000, 1000000000) ∧
    vortex (scale_candles 2 degenerate_candles) 1 =
      some (2000000000, 2000000000) ∧
    vortex (scale_candles 2 degenerate_candles) 1 ≠
      vortex degenerate_candles 1 := by
  refine ⟨by norm_num, by norm_num [degenerate_candles], ?_, ?_, ?_⟩ <;>
    norm_num [vortex, scale_candles, scale_candle, degenerate_candles,
      tr_list, vm_plus_list, vm_minus_list, slice_last, _true_range]

set_option maxHeartbeats 800000 in
/-- C7 (amended): multiplying every OHLC value by a positive constant
leaves the vortex pair unchanged PROVIDED the trailing true-range sum is
nonzero; the epsilon substitution for a zero sum breaks invariance there
(see the counterexample). -/
theorem vortex_scale_invariant (candles : List Candle) (length : Nat) (k : ℚ)
    (hk : 0 < k) (hlen : length + 1 ≤ candles.length)
    (htr : (slice_last length (tr_list candles)).sum ≠ 0) :
    vortex (scale_candles k candles) length = vortex candles length := by
  have hk0 : 0 ≤ k := le_of_lt hk
  have hkne : k ≠ 0 := ne_of_gt hk
  have hlen2 : (scale_candles k candles).length = candles.length := by
    simp [scale_candles]
  have hng : ¬ (candles.length < length + 1) := by omega
  have hsum_tr : (slice_last length (tr_list (scale_candles k candles))).sum =
      k * (slice_last length (tr_list candles)).sum := by
    rw [tr_list_scale k hk0, slice_last_map, sum_map_mul_const]
  have hsum_vp : (slice_last length (vm_plus_list (scale_candles k candles))).sum =
      k * (slice_last length (vm_plus_list candles)).sum := by
    rw [vm_plus_list_scale k hk0, slice_last_map, sum_map_mul_const]
  have hsum_vm : (slice_last length (vm_minus_list (scale_candles k candles))).sum =
      k * (slice_last length (vm_minus_list candles)).sum := by
    rw [vm_minus_list_scale k hk0, slice_last_map, sum_map_mul_const]
  have hktr : k * (slice_last length (tr_list candles)).sum ≠ 0 :=
    mul_ne_zero hkne htr
  unfold vortex
  rw [hlen2]
  simp only [hng, if_false, hsum_tr, hsum_vp, hsum_vm, htr, hktr,
    ite_not, if_neg hktr, if_neg htr]
  rw [mul_div_mul_left _ _ hkne, mul_div_mul_left _ _ hkne]

/-- Witness for C7: doubling a non-degenerate two-candle sequence leaves
the vortex pair unchanged. -/
theorem vortex_scale_invariant_witness :
    ((0 : ℚ) < 2) ∧ (1 + 1 ≤ sample_candles.length) ∧
    (slice_last 1 (tr_list sample_candles)).sum ≠ 0 ∧
    vortex (scale_candles 2 sample_candles) 1 = vortex sample_candles 1 := by
  have h1 : (0 : ℚ) < 2 := by norm_num
  have h2 : 1 + 1 ≤ sample_candles.length := by norm_num [sample_candles]
  have h3 : (slice_last 1 (tr_list sample_candles)).sum ≠ 0 := by
    norm_num [sample_candles, tr_list, slice_last, _true_range]
  exact ⟨h1, h2, h3, vortex_scale_invariant sample_candles 1 2 h1 h2 h3⟩

/-- If no oldest-open index exists, every record is closed. -/
theorem oldest_open_idx_none (trades : List VirtualTrade)
    (h : oldest_open_idx trades = none) :
    ∀ u ∈ trades, u.closed = true := by
  induction trades with
  | nil => simp
  | cons t ts ih =>
    intro u hu
    rw [oldest_open_idx] at h
    cases hrec : oldest_open_idx ts with
    | none =>
      rw [hrec] at h
      by_cases ht : t.closed
      · rcases List.mem_cons.mp hu with rfl | hu2
        · exact ht
        · exact ih hrec u hu2
      · simp [ht] at h
    | some jk =>
      rw [hrec] at h
      by_cases ht : t.closed <;> by_cases hle : t.created_at ≤ jk.2 <;>
        simp [ht, hle] at h

/-- An oldest-open index points at an open record of minimal created_at
(ties resolved to the earliest position, as the stable sort of Python does). -/
theorem oldest_open_idx_spec (trades : List VirtualTrade) (i : Nat) (k : ℚ)
    (h : oldest_open_idx trades = some (i, k)) :
    ∃ l1 e l2, trades = l1 ++ e :: l2 ∧ l1.length = i ∧ e.closed = false ∧
      e.created_at = k ∧
      ∀ u ∈ trades, u.closed = false → k ≤ u.created_at := by
  induction trades generalizing i k with
  | nil => simp [oldest_open_idx] at h
  | cons t ts ih =>
    rw [oldest_open_idx] at h
    cases hrec : oldest_open_idx ts with
    | none =>
      rw [hrec] at h
      by_cases ht : t.closed
      · simp [ht] at h
      · simp [ht] at h
        obtain ⟨hi, hk⟩ := h
        refine ⟨[], t, ts, by simp, by simp [hi], by simp [ht], hk, ?_⟩
        intro u hu huo
        rcases List.mem_cons.mp hu with rfl | hu2
        · exact le_of_eq hk.symm
        · exact absurd (oldest_open_idx_none ts hrec u hu2) (by simp [huo])
    | some jk =>
      rw [hrec] at h
      obtain ⟨l1, e, l2, hts, hlen, hecl, heca, hmin⟩ :=
        ih jk.1 jk.2 (by rw [hrec])
      by_cases ht : t.closed
      · simp only [ht, if_true, Option.some.injEq, Prod.mk.injEq] at h
        obtain ⟨hi, hk⟩ := h
        subst hi
        subst hk
        refine ⟨t :: l1, e, l2, by simp [hts], by simp [hlen], hecl, heca, ?_⟩
        intro u hu huo
        rcases List.mem_cons.mp hu with rfl | hu2
        · exact absurd ht (by simp [huo])
        · exact hmin u hu2 huo
      · by_cases hle : t.created_at ≤ jk.2
        · simp only [ht, hle, if_true, if_false, Bool.false_eq_true,
            Option.some.injEq, Prod.mk.injEq] at h
          obtain ⟨hi, hk⟩ := h
          subst hi
          subst hk
          refine ⟨[], t, ts, by simp, by simp, by simp [ht], rfl, ?_⟩
          intro u hu huo
          rcases List.mem_cons.mp hu with rfl | hu2
          · exact le_refl _
          · exact le_trans hle (hmin u hu2 huo)
        · simp only [ht, hle, if_true, if_false, Bool.false_eq_true,
            Option.some.injEq, Prod.mk.injEq] at h
          obtain ⟨hi, hk⟩ := h
          subst hi
          subst hk
          refine ⟨t :: l1, e, l2, by simp [hts], by simp [hlen], hecl, heca, ?_⟩
          intro u hu huo
          rcases List.mem_cons.mp hu with rfl | hu2
          · exact le_of_lt (lt_of_not_le hle)
          · exact hmin u hu2 huo

/-- Closing the record at the length of the left part targets exactly the
head of the right part. -/
theorem set_closed_at_append (l1 : List VirtualTrade) (e : VirtualTrade)
    (l2 : List VirtualTrade) :
    set_closed_at l1.length (l1 ++ e :: l2) =
      l1 ++ ({ e with closed := true }) :: l2 := by
  induction l1 with
  | nil => simp [set_closed_at]
  | cons x xs ih => simp [set_closed_at, ih]

/-- C8: with a positive configured maximum, opening a new (open) trade
into a store holding exactly maxActive open records force-closes exactly
one record — an open record of minimal created_at — then appends the new
record, leaving exactly maxActive open records. -/
theorem add_trade_eviction (maxActive : Nat) (trades : List VirtualTrade)
    (t : VirtualTrade) (hmax : 0 < maxActive)
    (hcount : (trades.filter fun x => !x.closed).length = maxActive)
    (hopen : t.closed = false) :
    ∃ l1 e l2,
      trades = l1 ++ e :: l2 ∧
      e.closed = false ∧
      (∀ u ∈ trades, u.closed = false → e.created_at ≤ u.created_at) ∧
      add_trade maxActive trades t =
        some (l1 ++ ({ e with closed := true }) :: (l2 ++ [t])) ∧
      (((l1 ++ ({ e with closed := true }) :: (l2 ++ [t])).filter
          fun x => !x.closed).length = maxActive) := by
  have hpos : 0 < (trades.filter fun x => !x.closed).length := by omega
  obtain ⟨u0, hu0⟩ := List.exists_mem_of_length_pos hpos
  have hu0m : u0 ∈ trades := List.mem_of_mem_filter hu0
  have hu0o : u0.closed = false := by
    have := List.of_mem_filter hu0
    simpa using this
  cases hoi : oldest_open_idx trades with
  | none =>
    exact absurd (oldest_open_idx_none trades hoi u0 hu0m) (by simp [hu0o])
  | some ik =>
    obtain ⟨l1, e, l2, hts, hlen, hecl, heca, hmin⟩ :=
      oldest_open_idx_spec trades ik.1 ik.2 (by rw [hoi])
    refine ⟨l1, e, l2, hts, hecl, ?_, ?_, ?_⟩
    · intro u hu huo
      exact heca ▸ hmin u hu huo
    · unfold add_trade
      have hle : maxActive ≤ (trades.filter fun x => !x.closed).length := by
        omega
      rw [if_pos hle]
      simp only [hoi]
      rw [hts, ← hlen, set_closed_at_append]
      simp
    · have hc2 : ((l1 ++ e :: l2).filter fun x => !x.closed).length =
          maxActive := by rw [← hts]; exact hcount
      simp only [List.filter_append, List.filter_cons, hecl, hopen,
        List.length_append] at hc2 ⊢
      simp at hc2 ⊢
      omega

/-- Witness for C8: a store holding one open trade with maximum one: the
stored record is closed and the new trade appended. -/
theorem add_trade_eviction_witness :
    (0 < 1) ∧
    (([sample_stored].filter fun x => !x.closed).length = 1) ∧
    (sample_trade.closed = false) ∧
    (∃ l1 e l2,
      [sample_stored] = l1 ++ e :: l2 ∧
      e.closed = false ∧
      (∀ u ∈ [sample_stored], u.closed = false →
        e.created_at ≤ u.created_at) ∧
      add_trade 1 [sample_stored] sample_trade =
        some (l1 ++ ({ e with closed := true }) :: (l2 ++ [sample_trade])) ∧
      (((l1 ++ ({ e with closed := true }) :: (l2 ++ [sample_trade])).filter
          fun x => !x.closed).length = 1)) :=
  ⟨Nat.one_pos, by simp [sample_stored], rfl,
   add_trade_eviction 1 [sample_stored] sample_trade Nat.one_pos
     (by simp [sample_stored]) rfl⟩

/-- Counterexample for C9: the stored record and the update argument agree
on created_at, symbol, side and entry but differ in timeframe, yet
update_trade replaces the record — the composite identity of the claim
(which includes timeframe) does not match, so the claim demands the store
stay unchanged. -/
theorem update_trade_identity_counterexample :
    sample_stored.symbol = sample_update.symbol ∧
    sample_stored.side = sample_update.side ∧
    sample_stored.entry = sample_update.entry ∧
    sample_stored.created_at = sample_update.created_at ∧
    sample_stored.tf ≠ sample_update.tf ∧
    update_trade [sample_stored] sample_update = [sample_update] ∧
    update_trade [sample_stored] sample_update ≠ [sample_stored] := by
  refine ⟨rfl, rfl, rfl, rfl, by decide, by decide, by decide⟩

/-- update_trade leaves the list unchanged when no record matches on
created_at, symbol, side and entry. -/
theorem update_trade_no_match (trades : List VirtualTrade) (u : VirtualTrade)
    (hall : ∀ x ∈ trades, trade_match x u = false) :
    update_trade trades u = trades := by
  induction trades with
  | nil => rfl
  | cons t ts ih =>
    simp only [update_trade, hall t (List.mem_cons_self t ts),
      Bool.false_eq_true, if_false]
    rw [ih fun x hx => hall x (List.mem_cons_of_mem t hx)]

/-- update_trade replaces exactly the first matching record. -/
theorem update_trade_first_match (l1 : List VirtualTrade) (x : VirtualTrade)
    (l2 : List VirtualTrade) (u : VirtualTrade)
    (hl1 : ∀ y ∈ l1, trade_match y u = false) (hx : trade_match x u = true) :
    update_trade (l1 ++ x :: l2) u = l1 ++ u :: l2 := by
  induction l1 with
  | nil => simp [update_trade, hx]
  | cons y ys ih =>
    simp only [List.cons_append, update_trade,
      hl1 y (List.mem_cons_self y ys), Bool.false_eq_true, if_false,
      List.append_eq]
    rw [ih fun z hz => hl1 z (List.mem_cons_of_mem y hz)]

/-- C9 (amended): the identity update_trade matches on is (createdAt,
symbol, side, entry) — timeframe is NOT compared; the first record
matching those four fields is replaced wholesale and all other records
are untouched; when no record matches those four fields the collection is
left entirely unchanged. -/
theorem update_trade_semantics (trades : List VirtualTrade)
    (u : VirtualTrade) :
    (∀ x : VirtualTrade, trade_match x u = true ↔
      (x.created_at = u.created_at ∧ x.symbol = u.symbol ∧
       x.side = u.side ∧ x.entry = u.entry)) ∧
    ((∀ x ∈ trades, trade_match x u = false) →
      update_trade trades u = trades) ∧
    (∀ l1 x l2, trades = l1 ++ x :: l2 →
      (∀ y ∈ l1, trade_match y u = false) → trade_match x u = true →
      update_trade trades u = l1 ++ u :: l2) := by
  refine ⟨?_, update_trade_no_match trades u, ?_⟩
  · intro x
    simp [trade_match, and_assoc]
  · intro l1 x l2 hts hl1 hx
    subst hts
    exact update_trade_first_match l1 x l2 u hl1 hx

/-- Witness for C9 at the counterexample store: the single stored record
matches on the four compared fields and is replaced. -/
theorem update_trade_semantics_witness :
    update_trade [sample_stored] sample_update =
      [] ++ sample_update :: [] :=
  (update_trade_semantics [sample_stored] sample_update).2.2 [] sample_stored []
    rfl (by simp) (by decide)

/-- C10: load_state yields the empty trade collection both when the state
file is absent and when the read or JSON parse raises, silently dropping
whatever durable records a corrupted file held (the filesystem and parser
are abstracted as the ReadResult input). -/
theorem load_state_swallows_errors :
    load_state ReadResult.missing = { trades := [] } ∧
    load_state ReadResult.failure = { trades := [] } ∧
    ∀ s : StoreState, s.trades ≠ [] →
      load_state ReadResult.failure ≠ load_state (ReadResult.parsed s) := by
  refine ⟨rfl, rfl, ?_⟩
  intro s hs heq
  apply hs
  cases heq
  rfl

/-- Witness for C10: a corrupted read of a store holding one record comes
back as the empty state, not the stored one. -/
theorem load_state_swallows_errors_witness :
    ([sample_stored] ≠ ([] : List VirtualTrade)) ∧
    load_state ReadResult.failure ≠
      load_state (ReadResult.parsed { trades := [sample_stored] }) :=
  ⟨by simp,
   load_state_swallows_errors.2.2 { trades := [sample_stored] } (by simp)⟩

/-- decide_signal returns WAIT exactly when the strength is below the
threshold. -/
theorem decide_signal_wait_iff (m vp vm : ℚ) :
    (decide_signal m vp vm).1 = "WAIT" ↔ |vp - vm| < m := by
  by_cases hlt : |vp - vm| < m <;> by_cases hgt : vp > vm <;>
    simp [decide_signal, hlt, hgt]

/-- decide_signal always returns the strength as its second component. -/
theorem decide_signal_strength (m vp vm : ℚ) :
    (decide_signal m vp vm).2 = |vp - vm| := by
  by_cases hlt : |vp - vm| < m <;> by_cases hgt : vp > vm <;>
    simp [decide_signal, hlt, hgt]

set_option maxHeartbeats 1600000 in
/-- C5: an analysis outcome carries a non-WAIT signal iff all five gates
hold simultaneously — the strength reaches the configured minimum (the
base signal is directional), the higher-timeframe confirmation holds
whenever the MTF filter is enabled, the trend filter holds, the
volatility filter holds, and the score reaches the configured minimum;
one failing gate forces WAIT regardless of the score. -/
theorem analyze_once_wait_gates (cfg : Config) (candles htf : List Candle)
    (sig : String) (plan : TradePlan) (strength vi_p vi_m atr_val : ℚ)
    (score : Int)
    (h : analyze_once cfg candles htf =
      some (sig, plan, strength, vi_p, vi_m, atr_val, score)) :
    sig ≠ "WAIT" ↔
      (cfg.MIN_STRENGTH ≤ strength ∧
       (cfg.MTF_FILTER = true →
         mtf_check cfg htf (direction_of vi_p vi_m) = some true) ∧
       trend_gate cfg candles vi_p vi_m ∧
       vol_gate cfg candles atr_val ∧
       cfg.MIN_SCORE ≤ score) := by
  cases hlast : candles.getLast? with
  | none => simp [analyze_once, hlast] at h
  | some last =>
  cases hvort : vortex candles cfg.VI_LENGTH with
  | none => simp [analyze_once, hlast, hvort] at h
  | some vi =>
  cases hatr : atr candles cfg.ATR_LENGTH with
  | none => simp [analyze_once, hlast, hvort, hatr] at h
  | some atrv =>
  cases hema : ema (slice_last cfg.EMA_LENGTH (candles.map fun x => x.c))
      cfg.EMA_LENGTH with
  | none => simp [analyze_once, hlast, hvort, hatr, hema] at h
  | some emav =>
  cases hmtf : mtf_check cfg htf (direction_of vi.1 vi.2) with
  | none => simp [analyze_once, hlast, hvort, hatr, hema, hmtf] at h
  | some mtf_ok =>
  simp only [analyze_once, hlast, hvort, hatr, hema, hmtf] at h
  split at h
  · rename_i hC
    simp only [Option.some.injEq, Prod.mk.injEq] at h
    obtain ⟨hsig, hplan, hstr, hvp, hvm, hatrv, hscore⟩ := h
    subst hsig
    subst hplan
    subst hstr
    subst hvp
    subst hvm
    subst hatrv
    subst hscore
    simp only [ne_eq, not_true_eq_false, false_iff]
    rintro ⟨hg1, hg2, hg3, hg4, hg5⟩
    rcases hC with hW | hM | hT | hV | hS
    · rw [decide_signal_wait_iff] at hW
      rw [decide_signal_strength] at hg1
      exact absurd hg1 (not_le.mpr hW)
    · obtain ⟨hMf, hMo⟩ := hM
      have h2 := hg2 hMf
      rw [hmtf] at h2
      rw [hMo] at h2
      simp at h2
    · obtain ⟨last2, ev2, hl2, he2, hcond⟩ := hg3
      rw [hlast] at hl2
      rw [hema] at he2
      injection hl2 with hl2
      injection he2 with he2
      subst hl2
      subst he2
      by_cases hd : direction_of vi.1 vi.2 = "BUY" <;>
        simp [trend_ok_calc, hd] at hT hcond <;>
        exact absurd hcond (not_lt.mpr hT)
    · obtain ⟨last2, hl2, hcond⟩ := hg4
      rw [hlast] at hl2
      injection hl2 with hl2
      subst hl2
      simp at hV
      exact absurd hcond (not_le.mpr hV)
    · omega
  · rename_i hC
    simp only [Option.some.injEq, Prod.mk.injEq] at h
    obtain ⟨hsig, hplan, hstr, hvp, hvm, hatrv, hscore⟩ := h
    subst hsig
    subst hplan
    subst hstr
    subst hvp
    subst hvm
    subst hatrv
    subst hscore
    push_neg at hC
    obtain ⟨hW, hM, hT, hV, hS⟩ := hC
    constructor
    · intro _
      refine ⟨?_, ?_, ?_, ?_, by omega⟩
      · rw [decide_signal_strength]
        by_contra hlt
        exact hW ((decide_signal_wait_iff _ _ _).mpr (not_le.mp hlt))
      · intro hMf
        rw [hmtf]
        have hmo : mtf_ok = true := by
          cases hb : mtf_ok
          · exact absurd hb (hM hMf)
          · rfl
        rw [hmo]
      · refine ⟨last, emav, hlast, hema, ?_⟩
        by_cases hd : direction_of vi.1 vi.2 = "BUY" <;>
          simp [trend_ok_calc, hd] at hT ⊢ <;> exact hT
      · refine ⟨last, hlast, ?_⟩
        simp at hV
        exact hV
    · intro _
      exact hW

/-- Witness for C5: on the sample configuration and candles the analysis
yields a BUY outcome, and the gate characterization applies to it. -/
theorem analyze_once_wait_gates_witness :
    analyze_once sample_cfg sample_candles [] =
      some ("BUY", { entry := 4, sl := 2, tp1 := 6, tp2 := 8, tp3 := 10 },
        1, 3 / 2, 1 / 2, 2, 100) ∧
    (("BUY" : String) ≠ "WAIT" ↔
      (sample_cfg.MIN_STRENGTH ≤ 1 ∧
       (sample_cfg.MTF_FILTER = true →
         mtf_check sample_cfg [] (direction_of (3 / 2) (1 / 2)) = some true) ∧
       trend_gate sample_cfg sample_candles (3 / 2) (1 / 2) ∧
       vol_gate sample_cfg sample_candles 2 ∧
       sample_cfg.MIN_SCORE ≤ 100)) := by
  have he : analyze_once sample_cfg sample_candles [] =
      some ("BUY", { entry := 4, sl := 2, tp1 := 6, tp2 := 8, tp3 := 10 },
        1, 3 / 2, 1 / 2, 2, 100) := by
    norm_num [analyze_once, sample_cfg, sample_candles, vortex, atr, ema,
      slice_last, tr_list, vm_plus_list, vm_minus_list, _true_range,
      decide_signal, direction_of, mtf_check, score_calc, build_trade_plan,
      atr_percent, trend_ok_calc, abs_of_nonneg, abs_of_nonpos]
    exact fun hx => hx.symm
  exact ⟨he, analyze_once_wait_gates sample_cfg sample_candles []
    "BUY" { entry := 4, sl := 2, tp1 := 6, tp2 := 8, tp3 := 10 }
    1 (3 / 2) (1 / 2) 2 100 he⟩

end Xauron
